import Mathlib

/-!
A verification development for the `daltons` responsive-image tool
(`src/index.js`).  The definitions below are a shallow embedding of the
program: the viewport sweep loop (Step 2), the perfect-width aggregation
(Step 3) and the `srcset` computation, with JavaScript number semantics
(`NaN`, `Infinity`, `Map` insertion order) made explicit.
-/

namespace Daltons

/-- A visitor analytics record `{viewport, density, views}` as produced by
`getContexts` (the Context Provider).  Densities are modelled as rationals,
viewports and view counts as naturals. -/
structure VisitorRecord where
  viewport : Nat
  density : ℚ
  views : Nat
deriving DecidableEq

/-- JavaScript numbers as they occur in this program: finite values
(modelled as rationals), `NaN` (which also stands for `undefined` once it
enters arithmetic, since `undefined` coerces to `NaN`), and the two
infinities. -/
inductive JSNum where
  | nan : JSNum
  | inf : JSNum
  | neginf : JSNum
  | num : ℚ → JSNum
deriving DecidableEq

/-- JavaScript multiplication `a * b` on the values of this program. -/
def jsMul : JSNum → JSNum → JSNum
  | .nan, _ => .nan
  | _, .nan => .nan
  | .num a, .num b => .num (a * b)
  | .inf, .num b => if b = 0 then .nan else if 0 < b then .inf else .neginf
  | .num a, .inf => if a = 0 then .nan else if 0 < a then .inf else .neginf
  | .neginf, .num b => if b = 0 then .nan else if 0 < b then .neginf else .inf
  | .num a, .neginf => if a = 0 then .nan else if 0 < a then .neginf else .inf
  | .inf, .inf => .inf
  | .inf, .neginf => .neginf
  | .neginf, .inf => .neginf
  | .neginf, .neginf => .inf

/-- JavaScript `Math.ceil`. -/
def jsCeil : JSNum → JSNum
  | .nan => .nan
  | .inf => .inf
  | .neginf => .neginf
  | .num q => .num ⌈q⌉

/-- JavaScript division `a / b`: division by zero yields `NaN` for `0 / 0`
and a signed infinity otherwise. -/
def jsDiv : JSNum → JSNum → JSNum
  | .nan, _ => .nan
  | _, .nan => .nan
  | .num a, .num b =>
      if b = 0 then
        if a = 0 then .nan else if 0 < a then .inf else .neginf
      else .num (a / b)
  | .inf, .num b => if 0 ≤ b then .inf else .neginf
  | .neginf, .num b => if 0 ≤ b then .neginf else .inf
  | .num _, .inf => .num 0
  | .num _, .neginf => .num 0
  | .inf, .inf => .nan
  | .inf, .neginf => .nan
  | .neginf, .inf => .nan
  | .neginf, .neginf => .nan

/-- The finite value of a `JSNum` (`0` for the non-finite ones); used only
to *state* properties about sums of shares. -/
def jsToQ : JSNum → ℚ
  | .num q => q
  | _ => 0

/-- The `VIEWPORT` object passed to `page.setViewport`:
`{width, height: 2000, deviceScaleFactor: 1}`; only `width` is ever
mutated by the sweep loop. -/
structure Viewport where
  width : Nat
  height : Nat
  deviceScaleFactor : Nat
deriving DecidableEq

/-- The sweep `while (VIEWPORT.width <= options.maxViewport)` loop.
`measure w` is the Oracle: the result of
`page.evaluate(sel => document.querySelector(sel).width)` at viewport
width `w`; `none` models a rejected evaluation (e.g. unmatched selector),
which aborts the `then` callback.  The loop body sets the viewport
(recorded in the first component, the resize-request trace), measures,
stores `w → imageWidth` in the `imageWidths` map (second component, in
insertion order) and increments the width.  The third component tells
whether the loop ran to completion. -/
def sweepLoop (measure : Nat → Option Nat) (width maxViewport : Nat) :
    List Viewport × List (Nat × Nat) × Bool :=
  if _h : width ≤ maxViewport then
    match measure width with
    | some imageWidth =>
        let rest := sweepLoop measure (width + 1) maxViewport
        (⟨width, 2000, 1⟩ :: rest.1, (width, imageWidth) :: rest.2.1, rest.2.2)
    | none => ([⟨width, 2000, 1⟩], [], false)
  else ([], [], true)
termination_by maxViewport + 1 - width
decreasing_by omega

/-- The resize requests `page.setViewport(VIEWPORT)` issued during the sweep,
in order. -/
def sweepTrace (measure : Nat → Option Nat) (minViewport maxViewport : Nat) :
    List Viewport :=
  (sweepLoop measure minViewport maxViewport).1

/-- The `imageWidths` map built by the sweep: an ordered association list of
`viewport width → image width`, in insertion order (JavaScript `Map`
iteration order). -/
def sweepMeasurements (measure : Nat → Option Nat)
    (minViewport maxViewport : Nat) : List (Nat × Nat) :=
  (sweepLoop measure minViewport maxViewport).2.1

/-- `Map.prototype.get`, on an association list with (as in any JavaScript
`Map`) at most one entry per key. -/
def mapFind {κ α : Type} [DecidableEq κ] (m : List (κ × α)) (k : κ) :
    Option α :=
  (m.find? (fun p => decide (p.1 = k))).map (·.2)

/-- `Map.prototype.set`: replace the value of an existing key in place,
otherwise append a new entry (JavaScript `Map` insertion-order semantics). -/
def mapSet {κ α : Type} [DecidableEq κ] : List (κ × α) → κ → α → List (κ × α)
  | [], k, v => [(k, v)]
  | p :: t, k, v => if p.1 = k then (k, v) :: t else p :: mapSet t k v

/-- `imageWidths.get(w)` as it is used inside arithmetic: a missing key
gives `undefined`, which coerces to `NaN`. -/
def mapGet (m : List (Nat × Nat)) (k : Nat) : JSNum :=
  match mapFind m k with
  | some v => .num v
  | none => .nan

/-- `Math.ceil(imageWidths.get(value.viewport) * value.density)` — the
perfect width the aggregation loop computes for a record. -/
def perfectWidthOf (imageWidths : List (Nat × Nat)) (r : VisitorRecord) :
    JSNum :=
  jsCeil (jsMul (mapGet imageWidths r.viewport) (.num r.density))

/-- The mutable state of the Step-3 aggregation: the `perfectWidths` map
(values are plain finite numbers while views are being accumulated) and the
`totalViews` counter. -/
structure AggState where
  perfectWidths : List (JSNum × ℚ)
  totalViews : Nat
deriving DecidableEq

/-- One iteration of `contexts.map(value => { ... })`: records with
`value.viewport >= options.minViewport && value.viewport <= options.maxViewport`
accumulate `(perfectWidths.get(perfectWidth) || 0) + value.views` under key
`perfectWidth` and bump `totalViews`; all other records leave the state
unchanged. -/
def recordStep (imageWidths : List (Nat × Nat)) (minViewport maxViewport : Nat)
    (st : AggState) (value : VisitorRecord) : AggState :=
  if minViewport ≤ value.viewport ∧ value.viewport ≤ maxViewport then
    let perfectWidth := perfectWidthOf imageWidths value
    { perfectWidths :=
        mapSet st.perfectWidths perfectWidth
          ((mapFind st.perfectWidths perfectWidth).getD 0 + (value.views : ℚ)),
      totalViews := st.totalViews + value.views }
  else st

/-- The whole accumulation pass over `contexts`, starting from the empty
`perfectWidths` map and `totalViews = 0`. -/
def accumulate (imageWidths : List (Nat × Nat)) (minViewport maxViewport : Nat)
    (contexts : List VisitorRecord) : AggState :=
  contexts.foldl (recordStep imageWidths minViewport maxViewport) ⟨[], 0⟩

/-- The aggregation result after the normalization pass
`perfectWidths.forEach((views, width) => perfectWidths.set(width, views / totalViews))`:
each accumulated count is replaced by its JavaScript quotient by
`totalViews`.  (The subsequent sort by decreasing percentage is
presentation only: it permutes entries without changing any key or
value.) -/
def aggregate (imageWidths : List (Nat × Nat)) (minViewport maxViewport : Nat)
    (contexts : List VisitorRecord) : List (JSNum × JSNum) :=
  let st := accumulate imageWidths minViewport maxViewport contexts
  st.perfectWidths.map (fun p => (p.1, jsDiv (.num p.2) (.num st.totalViews)))

/-- The `srcset` computation of Step 3 — in the source it is the stub
`// todo` / `let srcset = []`, ignoring the demand distribution and the
configured `widthsNumber`. -/
def srcsetPlan (_perfectWidths : List (JSNum × JSNum)) (_widthsNumber : Nat) :
    List Nat :=
  []

/-- Sum of the `views` fields of the records inside the sweep range. -/
def inRangeViews (minViewport maxViewport : Nat)
    (contexts : List VisitorRecord) : Nat :=
  ((contexts.filter fun r =>
      decide (minViewport ≤ r.viewport ∧ r.viewport ≤ maxViewport)).map
    (·.views)).sum

/-- Sum of the `views` of the in-range records whose perfect width is `k`. -/
def demandViews (imageWidths : List (Nat × Nat))
    (minViewport maxViewport : Nat) (contexts : List VisitorRecord)
    (k : JSNum) : Nat :=
  ((contexts.filter fun r =>
      decide ((minViewport ≤ r.viewport ∧ r.viewport ≤ maxViewport) ∧
        perfectWidthOf imageWidths r = k)).map (·.views)).sum

/-- Sum of the values of a `perfectWidths` map during accumulation. -/
def valueSum (m : List (JSNum × ℚ)) : ℚ :=
  (m.map (·.2)).sum

/-- Sum of the (finite) share values of a normalized distribution; used to
state that shares sum to 1. -/
def shareSum (d : List (JSNum × JSNum)) : ℚ :=
  (d.map (fun p => jsToQ p.2)).sum

/-- What `main` returns to its caller once the promise resolves.  There is
no error channel: the only `catch` around navigation and the sweep merely
logs, so `main` always resolves with whatever data the later stages
computed. -/
structure MainResult where
  imageWidths : List (Nat × Nat)
  perfectWidths : List (JSNum × JSNum)
  srcset : List Nat
deriving DecidableEq

/-- The run of `main` after configuration: `page.goto` either succeeds
(`navOk = true`) and the `then` callback performs the sweep, or fails and
the `catch` only logs — the sweep never starts and `imageWidths` stays
empty.  Execution then continues unconditionally into Step 3 over whatever
(possibly empty) `imageWidths` map exists. -/
def runMain (navOk : Bool) (measure : Nat → Option Nat)
    (minViewport maxViewport : Nat) (contexts : List VisitorRecord)
    (widthsNumber : Nat) : MainResult :=
  let imageWidths :=
    if navOk then sweepMeasurements measure minViewport maxViewport else []
  let perfectWidths := aggregate imageWidths minViewport maxViewport contexts
  { imageWidths := imageWidths,
    perfectWidths := perfectWidths,
    srcset := srcsetPlan perfectWidths widthsNumber }

/-! ### Helper lemmas -/

theorem sweepLoop_total (μ : Nat → Nat) (maxViewport : Nat) :
    ∀ (n w : Nat), maxViewport + 1 - w = n →
      sweepLoop (fun i => some (μ i)) w maxViewport =
        ((List.range' w n).map fun i => ⟨i, 2000, 1⟩,
         (List.range' w n).map fun i => (i, μ i), true) := by
  intro n
  induction n with
  | zero =>
      intro w hw
      rw [sweepLoop]
      simp only [List.range', List.map_nil]
      rw [dif_neg (by omega)]
  | succ n ih =>
      intro w hw
      rw [sweepLoop]
      rw [dif_pos (by omega)]
      have hrest := ih (w + 1) (by omega)
      simp only [hrest, List.range'_succ, List.map_cons]

theorem sweepMeasurements_eq (μ : Nat → Nat) (minViewport maxViewport : Nat) :
    sweepMeasurements (fun i => some (μ i)) minViewport maxViewport =
      (List.range' minViewport (maxViewport + 1 - minViewport)).map
        fun i => (i, μ i) := by
  rw [sweepMeasurements, sweepLoop_total μ maxViewport _ minViewport rfl]

theorem mapFind_range'_map (μ : Nat → Nat) :
    ∀ (n s v : Nat),
      mapFind ((List.range' s n).map fun i => (i, μ i)) v =
        if s ≤ v ∧ v < s + n then some (μ v) else none := by
  intro n
  induction n with
  | zero =>
      intro s v
      simp only [List.range', List.map_nil, mapFind, List.find?_nil,
        Option.map_none']
      rw [if_neg (by omega)]
  | succ n ih =>
      intro s v
      rw [List.range'_succ, List.map_cons]
      by_cases hsv : s = v
      · subst hsv
        rw [mapFind, List.find?_cons_of_pos _ (by simp)]
        simp only [Option.map_some']
        rw [if_pos (by omega)]
      · rw [mapFind, List.find?_cons_of_neg _ (by simp [hsv])]
        rw [← mapFind, ih (s + 1) v]
        by_cases hle : s + 1 ≤ v ∧ v < s + 1 + n
        · rw [if_pos hle, if_pos (by omega)]
        · rw [if_neg hle, if_neg (by omega)]

theorem mapGet_sweep (μ : Nat → Nat) (minViewport maxViewport v : Nat)
    (hlo : minViewport ≤ v) (hhi : v ≤ maxViewport) :
    mapGet (sweepMeasurements (fun i => some (μ i)) minViewport maxViewport) v
      = .num (μ v) := by
  rw [mapGet, sweepMeasurements_eq, mapFind_range'_map]
  rw [if_pos (by omega)]

theorem mapFind_mapSet_self {κ α : Type} [DecidableEq κ]
    (m : List (κ × α)) (k : κ) (v : α) :
    mapFind (mapSet m k v) k = some v := by
  induction m with
  | nil => simp [mapSet, mapFind]
  | cons p t ih =>
      rw [mapSet]
      by_cases hp : p.1 = k
      · rw [if_pos hp, mapFind, List.find?_cons_of_pos _ (by simp)]
        rfl
      · rw [if_neg hp, mapFind, List.find?_cons_of_neg _ (by simp [hp])]
        exact ih

theorem mapFind_mapSet_ne {κ α : Type} [DecidableEq κ]
    (m : List (κ × α)) (k : κ) (v : α) (q : κ) (hq : q ≠ k) :
    mapFind (mapSet m k v) q = mapFind m q := by
  induction m with
  | nil =>
      rw [mapSet, mapFind, mapFind]
      rw [List.find?_cons_of_neg _ (by simp [Ne.symm hq])]
  | cons p t ih =>
      rw [mapSet]
      by_cases hp : p.1 = k
      · rw [if_pos hp, mapFind, List.find?_cons_of_neg _ (by simp [Ne.symm hq]),
          mapFind, List.find?_cons_of_neg _ (by simp [hp ▸ Ne.symm hq])]
      · rw [if_neg hp]
        by_cases hpq : p.1 = q
        · rw [mapFind, List.find?_cons_of_pos _ (by simp [hpq]),
            mapFind, List.find?_cons_of_pos _ (by simp [hpq])]
        · rw [mapFind, List.find?_cons_of_neg _ (by simp [hpq]),
            mapFind, List.find?_cons_of_neg _ (by simp [hpq])]
          exact ih

theorem mapFind_map_div (m : List (JSNum × ℚ)) (T : ℚ) (k : JSNum) :
    mapFind (m.map fun p => (p.1, jsDiv (.num p.2) (.num T))) k =
      (mapFind m k).map (fun v => jsDiv (.num v) (.num T)) := by
  induction m with
  | nil => simp [mapFind]
  | cons p t ih =>
      rw [List.map_cons]
      by_cases hp : p.1 = k
      · rw [mapFind, List.find?_cons_of_pos _ (by simp [hp]),
          mapFind, List.find?_cons_of_pos _ (by simp [hp])]
        rfl
      · rw [mapFind, List.find?_cons_of_neg _ (by simp [hp]),
          mapFind, List.find?_cons_of_neg _ (by simp [hp])]
        exact ih

theorem valueSum_mapSet (m : List (JSNum × ℚ)) (k : JSNum) (v : ℚ) :
    valueSum (mapSet m k ((mapFind m k).getD 0 + v)) = valueSum m + v := by
  induction m with
  | nil => simp [mapSet, mapFind, valueSum]
  | cons p t ih =>
      by_cases hp : p.1 = k
      · rw [mapFind, List.find?_cons_of_pos _ (by simp [hp]),
          mapSet, if_pos hp]
        simp only [valueSum, List.map_cons, List.sum_cons, Option.map_some',
          Option.getD_some]
        ring
      · rw [mapFind, List.find?_cons_of_neg _ (by simp [hp]),
          mapSet, if_neg hp, ← mapFind]
        simp only [valueSum, List.map_cons, List.sum_cons] at ih ⊢
        rw [ih]
        ring

theorem AggState_pw_mk (m : List (JSNum × ℚ)) (n : Nat) :
    (AggState.mk m n).perfectWidths = m := rfl

theorem AggState_tv_mk (m : List (JSNum × ℚ)) (n : Nat) :
    (AggState.mk m n).totalViews = n := rfl

theorem inRangeViews_cons (minViewport maxViewport : Nat) (r : VisitorRecord)
    (t : List VisitorRecord) :
    inRangeViews minViewport maxViewport (r :: t) =
      (if minViewport ≤ r.viewport ∧ r.viewport ≤ maxViewport then r.views
       else 0) + inRangeViews minViewport maxViewport t := by
  by_cases hr : minViewport ≤ r.viewport ∧ r.viewport ≤ maxViewport
  · simp [inRangeViews, List.filter_cons, hr]
  · simp [inRangeViews, List.filter_cons, hr]

theorem demandViews_cons (imageWidths : List (Nat × Nat))
    (minViewport maxViewport : Nat) (r : VisitorRecord)
    (t : List VisitorRecord) (k : JSNum) :
    demandViews imageWidths minViewport maxViewport (r :: t) k =
      (if (minViewport ≤ r.viewport ∧ r.viewport ≤ maxViewport) ∧
          perfectWidthOf imageWidths r = k then r.views else 0) +
        demandViews imageWidths minViewport maxViewport t k := by
  by_cases hr : (minViewport ≤ r.viewport ∧ r.viewport ≤ maxViewport) ∧
      perfectWidthOf imageWidths r = k
  · simp [demandViews, List.filter_cons, hr]
  · simp [demandViews, List.filter_cons, hr]

theorem foldl_totalViews (imageWidths : List (Nat × Nat))
    (minViewport maxViewport : Nat) :
    ∀ (l : List VisitorRecord) (st : AggState),
      (l.foldl (recordStep imageWidths minViewport maxViewport) st).totalViews
        = st.totalViews + inRangeViews minViewport maxViewport l := by
  intro l
  induction l with
  | nil =>
      intro st
      simp [inRangeViews]
  | cons r t ih =>
      intro st
      rw [List.foldl_cons, ih, inRangeViews_cons]
      by_cases hr : minViewport ≤ r.viewport ∧ r.viewport ≤ maxViewport
      · simp only [recordStep, if_pos hr]
        omega
      · simp only [recordStep, if_neg hr]
        omega

theorem foldl_valueSum (imageWidths : List (Nat × Nat))
    (minViewport maxViewport : Nat) :
    ∀ (l : List VisitorRecord) (st : AggState),
      valueSum
          (l.foldl (recordStep imageWidths minViewport maxViewport)
            st).perfectWidths
        = valueSum st.perfectWidths +
            (inRangeViews minViewport maxViewport l : ℚ) := by
  intro l
  induction l with
  | nil =>
      intro st
      simp [inRangeViews]
  | cons r t ih =>
      intro st
      rw [List.foldl_cons, ih, inRangeViews_cons]
      by_cases hr : minViewport ≤ r.viewport ∧ r.viewport ≤ maxViewport
      · simp only [recordStep, if_pos hr]
        rw [valueSum_mapSet]
        push_cast [if_pos hr]
        ring
      · simp only [recordStep, if_neg hr]
        push_cast [if_neg hr]
        ring

theorem foldl_mapFind (imageWidths : List (Nat × Nat))
    (minViewport maxViewport : Nat) :
    ∀ (l : List VisitorRecord) (st : AggState) (k : JSNum),
      mapFind
          (l.foldl (recordStep imageWidths minViewport maxViewport)
            st).perfectWidths k
        = if (mapFind st.perfectWidths k).isSome
              ∨ ∃ r ∈ l,
                  (minViewport ≤ r.viewport ∧ r.viewport ≤ maxViewport) ∧
                    perfectWidthOf imageWidths r = k
          then some ((mapFind st.perfectWidths k).getD 0 +
              (demandViews imageWidths minViewport maxViewport l k : ℚ))
          else none := by
  intro l
  induction l with
  | nil =>
      intro st k
      rw [List.foldl_nil]
      cases hfind : mapFind st.perfectWidths k with
      | some v => simp [hfind, demandViews]
      | none => simp [hfind, demandViews]
  | cons r t ih =>
      intro st k
      rw [List.foldl_cons]
      by_cases hr : minViewport ≤ r.viewport ∧ r.viewport ≤ maxViewport
      · by_cases hk : perfectWidthOf imageWidths r = k
        · -- the head record contributes to key `k`
          simp only [recordStep]
          rw [if_pos hr]
          simp only [hk]
          rw [ih]
          simp only [AggState_pw_mk, mapFind_mapSet_self, Option.isSome_some,
            eq_self_iff_true, true_or, if_true, Option.getD_some]
          rw [if_pos (show (mapFind st.perfectWidths k).isSome = true
                ∨ ∃ x ∈ r :: t,
                    (minViewport ≤ x.viewport ∧ x.viewport ≤ maxViewport) ∧
                      perfectWidthOf imageWidths x = k from
              Or.inr ⟨r, List.mem_cons_self r t, hr, hk⟩)]
          rw [demandViews_cons,
            if_pos (show (minViewport ≤ r.viewport ∧
                r.viewport ≤ maxViewport) ∧
                perfectWidthOf imageWidths r = k from ⟨hr, hk⟩)]
          simp only [Option.some.injEq]
          push_cast
          ring
        · -- the head record touches a different key
          simp only [recordStep]
          rw [if_pos hr]
          rw [ih]
          simp only [AggState_pw_mk]
          rw [mapFind_mapSet_ne _ _ _ _ (Ne.symm hk)]
          rw [demandViews_cons,
            if_neg (show ¬((minViewport ≤ r.viewport ∧
                r.viewport ≤ maxViewport) ∧
                perfectWidthOf imageWidths r = k) from fun h => hk h.2),
            Nat.zero_add]
          have hiff : ((mapFind st.perfectWidths k).isSome = true
                ∨ ∃ x ∈ r :: t,
                    (minViewport ≤ x.viewport ∧ x.viewport ≤ maxViewport) ∧
                      perfectWidthOf imageWidths x = k)
              ↔ ((mapFind st.perfectWidths k).isSome = true
                ∨ ∃ x ∈ t,
                    (minViewport ≤ x.viewport ∧ x.viewport ≤ maxViewport) ∧
                      perfectWidthOf imageWidths x = k) := by
            constructor
            · rintro (h | ⟨x, hx, hP⟩)
              · exact Or.inl h
              · rcases List.mem_cons.mp hx with h' | hx'
                · exact absurd (h' ▸ hP.2) hk
                · exact Or.inr ⟨x, hx', hP⟩
            · rintro (h | ⟨x, hx, hP⟩)
              · exact Or.inl h
              · exact Or.inr ⟨x, List.mem_cons_of_mem r hx, hP⟩
          rw [if_congr hiff rfl rfl]
      · -- out-of-range record: state unchanged, no contribution
        simp only [recordStep]
        rw [if_neg hr]
        rw [ih]
        rw [demandViews_cons,
          if_neg (show ¬((minViewport ≤ r.viewport ∧
              r.viewport ≤ maxViewport) ∧
              perfectWidthOf imageWidths r = k) from fun h => hr h.1),
          Nat.zero_add]
        have hiff : ((mapFind st.perfectWidths k).isSome = true
              ∨ ∃ x ∈ r :: t,
                  (minViewport ≤ x.viewport ∧ x.viewport ≤ maxViewport) ∧
                    perfectWidthOf imageWidths x = k)
            ↔ ((mapFind st.perfectWidths k).isSome = true
              ∨ ∃ x ∈ t,
                  (minViewport ≤ x.viewport ∧ x.viewport ≤ maxViewport) ∧
                    perfectWidthOf imageWidths x = k) := by
          constructor
          · rintro (h | ⟨x, hx, hP⟩)
            · exact Or.inl h
            · rcases List.mem_cons.mp hx with h' | hx'
              · exact absurd (h' ▸ hP.1) hr
              · exact Or.inr ⟨x, hx', hP⟩
          · rintro (h | ⟨x, hx, hP⟩)
            · exact Or.inl h
            · exact Or.inr ⟨x, List.mem_cons_of_mem r hx, hP⟩
        rw [if_congr hiff rfl rfl]

theorem accumulate_totalViews (imageWidths : List (Nat × Nat))
    (minViewport maxViewport : Nat) (contexts : List VisitorRecord) :
    (accumulate imageWidths minViewport maxViewport contexts).totalViews =
      inRangeViews minViewport maxViewport contexts := by
  rw [accumulate, foldl_totalViews]
  simp

theorem mapFind_accumulate (imageWidths : List (Nat × Nat))
    (minViewport maxViewport : Nat) (contexts : List VisitorRecord)
    (k : JSNum) :
    mapFind
        (accumulate imageWidths minViewport maxViewport contexts).perfectWidths
        k
      = if ∃ r ∈ contexts,
            (minViewport ≤ r.viewport ∧ r.viewport ≤ maxViewport) ∧
              perfectWidthOf imageWidths r = k
        then some
            ((demandViews imageWidths minViewport maxViewport contexts k : ℚ))
        else none := by
  rw [accumulate, foldl_mapFind]
  simp [mapFind]

theorem mapFind_aggregate (imageWidths : List (Nat × Nat))
    (minViewport maxViewport : Nat) (contexts : List VisitorRecord)
    (k : JSNum) :
    mapFind (aggregate imageWidths minViewport maxViewport contexts) k
      = if ∃ r ∈ contexts,
            (minViewport ≤ r.viewport ∧ r.viewport ≤ maxViewport) ∧
              perfectWidthOf imageWidths r = k
        then some (jsDiv
            (.num (demandViews imageWidths minViewport maxViewport contexts k))
            (.num (inRangeViews minViewport maxViewport contexts)))
        else none := by
  rw [aggregate]
  rw [mapFind_map_div, mapFind_accumulate, accumulate_totalViews]
  by_cases hex : ∃ r ∈ contexts,
      (minViewport ≤ r.viewport ∧ r.viewport ≤ maxViewport) ∧
        perfectWidthOf imageWidths r = k
  · rw [if_pos hex, if_pos hex]
    rfl
  · rw [if_neg hex, if_neg hex]
    rfl

theorem sweepTrace_shape (measure : Nat → Option Nat) (maxViewport : Nat) :
    ∀ (n w : Nat), maxViewport + 1 - w = n →
      ∃ m, (sweepLoop measure w maxViewport).1 =
        (List.range' w m).map fun i => ⟨i, 2000, 1⟩ := by
  intro n
  induction n with
  | zero =>
      intro w hw
      refine ⟨0, ?_⟩
      rw [sweepLoop, dif_neg (by omega)]
      simp
  | succ n ih =>
      intro w hw
      rw [sweepLoop, dif_pos (by omega)]
      cases hmw : measure w with
      | some v =>
          obtain ⟨m, hm⟩ := ih (w + 1) (by omega)
          refine ⟨m + 1, ?_⟩
          simp only [hm, List.range'_succ, List.map_cons]
      | none =>
          refine ⟨1, ?_⟩
          simp

/-! ### Claim theorems -/

/-- C1: for every sweep over a valid Sweep Range (`min ≤ max`) in which the
Oracle reports `μ w` at every width, the resulting `imageWidths` mapping
has exactly one entry per integer viewport width in `{min, …, max}`,
inserted in strictly increasing key order, with each key `w` mapped to the
Oracle's reported width `μ w`. -/
theorem sweep_measurements_complete (μ : Nat → Nat)
    (minViewport maxViewport : Nat) (h : minViewport ≤ maxViewport) :
    sweepMeasurements (fun w => some (μ w)) minViewport maxViewport =
      (List.range' minViewport (maxViewport + 1 - minViewport)).map
        fun w => (w, μ w) :=
  sweepMeasurements_eq μ minViewport maxViewport

theorem sweep_measurements_complete_witness :
    3 ≤ 5 ∧
      sweepMeasurements (fun w => some (w + 2)) 3 5 =
        (List.range' 3 (5 + 1 - 3)).map fun w => (w, w + 2) :=
  ⟨by decide, sweep_measurements_complete (fun w => w + 2) 3 5 (by decide)⟩

/-- C9: every resize request issued to the Oracle during the sweep uses the
same fixed tall height `2000` and `deviceScaleFactor` `1`; across all
iterations only the `width` field changes, taking consecutive values from
`minViewport`. -/
theorem sweep_trace_fixed_height (measure : Nat → Option Nat)
    (minViewport maxViewport : Nat) :
    sweepTrace measure minViewport maxViewport =
      (List.range' minViewport
          (sweepTrace measure minViewport maxViewport).length).map
        fun w => ⟨w, 2000, 1⟩ := by
  obtain ⟨m, hm⟩ := sweepTrace_shape measure maxViewport
    (maxViewport + 1 - minViewport) minViewport rfl
  rw [sweepTrace, hm, List.length_map, List.length_range']

/-- C6: the `srcset` computation in the source is the stub
`let srcset = []`: it returns the empty list whatever the demand
distribution and the configured `widthsNumber` are. -/
theorem srcset_stub_empty (perfectWidths : List (JSNum × JSNum))
    (widthsNumber : Nat) :
    srcsetPlan perfectWidths widthsNumber = [] :=
  rfl

/-- C5 (counterexample evidence): for the distribution `{602 ↦ 1}` and
target count `N = 1` the Selector contract demands
`min(N, distinct widths) = 1` widths, but the source's `srcset`
computation returns the empty list — the contract is not met by the code. -/
theorem srcset_plan_size_stub :
    srcsetPlan [(JSNum.num 602, JSNum.num 1)] 1 = [] ∧
      min 1 [(JSNum.num 602, JSNum.num 1)].length = 1 :=
  ⟨rfl, rfl⟩

/-- C8: for a record whose rendered width resolves to the non-negative
integer `n` and whose density is at least 1, the computed perfect width
`Math.ceil(renderedWidth * density)` is `⌈n * density⌉`, which is greater
than or equal to the rendered width `n`. -/
theorem perfect_width_ge_rendered (imageWidths : List (Nat × Nat))
    (r : VisitorRecord) (n : Nat)
    (hres : mapGet imageWidths r.viewport = JSNum.num (n : ℚ))
    (hd : 1 ≤ r.density) :
    perfectWidthOf imageWidths r =
        JSNum.num ((⌈(n : ℚ) * r.density⌉ : ℤ) : ℚ) ∧
      (n : ℤ) ≤ ⌈(n : ℚ) * r.density⌉ := by
  constructor
  · rw [perfectWidthOf, hres]
    simp [jsMul, jsCeil]
  · calc (n : ℤ) = ⌈(n : ℚ)⌉ := (Int.ceil_natCast n).symm
      _ ≤ ⌈(n : ℚ) * r.density⌉ :=
        Int.ceil_le_ceil (le_mul_of_one_le_right (by positivity) hd)

theorem perfect_width_ge_rendered_witness :
    (mapGet [(300, 100)] (VisitorRecord.mk 300 (3 / 2) 7).viewport =
        JSNum.num ((100 : Nat) : ℚ)) ∧
      (perfectWidthOf [(300, 100)] (VisitorRecord.mk 300 (3 / 2) 7) =
          JSNum.num ((⌈((100 : Nat) : ℚ) *
            (VisitorRecord.mk 300 (3 / 2) 7).density⌉ : ℤ) : ℚ) ∧
        ((100 : Nat) : ℤ) ≤
          ⌈((100 : Nat) : ℚ) * (VisitorRecord.mk 300 (3 / 2) 7).density⌉) :=
  ⟨by decide,
    perfect_width_ge_rendered [(300, 100)] (VisitorRecord.mk 300 (3 / 2) 7)
      100 (by decide) (by norm_num)⟩

theorem accumulate_valueSum (imageWidths : List (Nat × Nat))
    (minViewport maxViewport : Nat) (contexts : List VisitorRecord) :
    valueSum
        (accumulate imageWidths minViewport maxViewport contexts).perfectWidths
      = ((inRangeViews minViewport maxViewport contexts : ℚ)) := by
  rw [accumulate, foldl_valueSum]
  simp [valueSum]

theorem sum_jsToQ_div (l : List (JSNum × ℚ)) (T : ℚ) (hT : T ≠ 0) :
    ((l.map fun p => (p.1, jsDiv (.num p.2) (.num T))).map
        (fun p => jsToQ p.2)).sum
      = valueSum l / T := by
  induction l with
  | nil => simp [valueSum]
  | cons p t ih =>
      have hhead : jsToQ (jsDiv (JSNum.num p.2) (JSNum.num T)) = p.2 / T := by
        simp [jsDiv, if_neg hT, jsToQ]
      simp only [List.map_cons, List.sum_cons, ih, hhead, valueSum, add_div]

/-- C2: with the complete `imageWidths` mapping produced by a sweep with
Oracle `μ`, the aggregation processes exactly the records with
`min ≤ viewport ≤ max`: `totalViews` is the sum of their view counts, each
in-range record's perfect width is `⌈μ(viewport) × density⌉`, the
accumulated `perfectWidths` map holds, for exactly the perfect widths of
in-range records, the summed views of the records sharing that width, and
the normalization pass replaces each accumulated count by its JavaScript
quotient by `totalViews`.  Out-of-range records contribute to none of
these. -/
theorem aggregate_spec (μ : Nat → Nat) (minViewport maxViewport : Nat)
    (contexts : List VisitorRecord) (imageWidths : List (Nat × Nat))
    (hm : imageWidths =
      sweepMeasurements (fun w => some (μ w)) minViewport maxViewport) :
    (accumulate imageWidths minViewport maxViewport contexts).totalViews =
        inRangeViews minViewport maxViewport contexts
    ∧ (∀ r ∈ contexts,
        minViewport ≤ r.viewport → r.viewport ≤ maxViewport →
          perfectWidthOf imageWidths r =
            JSNum.num ((⌈(μ r.viewport : ℚ) * r.density⌉ : ℤ) : ℚ))
    ∧ (∀ k : JSNum,
        mapFind
            (accumulate imageWidths minViewport maxViewport
              contexts).perfectWidths k
          = if ∃ r ∈ contexts,
                (minViewport ≤ r.viewport ∧ r.viewport ≤ maxViewport) ∧
                  perfectWidthOf imageWidths r = k
            then some
                ((demandViews imageWidths minViewport maxViewport contexts k :
                  ℚ))
            else none)
    ∧ (∀ k : JSNum,
        mapFind (aggregate imageWidths minViewport maxViewport contexts) k
          = if ∃ r ∈ contexts,
                (minViewport ≤ r.viewport ∧ r.viewport ≤ maxViewport) ∧
                  perfectWidthOf imageWidths r = k
            then some (jsDiv
                (.num (demandViews imageWidths minViewport maxViewport
                  contexts k))
                (.num (inRangeViews minViewport maxViewport contexts)))
            else none) := by
  refine ⟨accumulate_totalViews _ _ _ _, ?_,
    mapFind_accumulate _ _ _ _, mapFind_aggregate _ _ _ _⟩
  intro r hr hlo hhi
  rw [perfectWidthOf, hm, mapGet_sweep μ minViewport maxViewport r.viewport
    hlo hhi]
  simp [jsMul, jsCeil]

theorem aggregate_spec_witness :
    mapFind
        (aggregate [(300, 300), (301, 301), (302, 302)] 300 302
          [VisitorRecord.mk 300 1 10, VisitorRecord.mk 301 2 5])
        (JSNum.num 602)
      = some (jsDiv (JSNum.num 5) (JSNum.num 15)) := by
  have h := (aggregate_spec (fun w => w) 300 302
    [VisitorRecord.mk 300 1 10, VisitorRecord.mk 301 2 5]
    [(300, 300), (301, 301), (302, 302)]
    (by rw [sweepMeasurements_eq]; decide)).2.2.2 (JSNum.num 602)
  refine h.trans ?_
  norm_num [perfectWidthOf, mapGet, mapFind, List.find?, jsMul, jsCeil,
    jsDiv, demandViews, inRangeViews, List.filter]

/-- C3: whenever the total view count of the in-range records is positive,
every share in the normalized distribution is a finite number and the
shares sum to 1. -/
theorem shares_sum_to_one (imageWidths : List (Nat × Nat))
    (minViewport maxViewport : Nat) (contexts : List VisitorRecord)
    (h : 0 < inRangeViews minViewport maxViewport contexts) :
    (∀ p ∈ aggregate imageWidths minViewport maxViewport contexts,
        ∃ q : ℚ, p.2 = JSNum.num q)
    ∧ shareSum (aggregate imageWidths minViewport maxViewport contexts)
        = 1 := by
  have hT0 : (accumulate imageWidths minViewport maxViewport
      contexts).totalViews ≠ 0 := by
    rw [accumulate_totalViews]
    exact Nat.pos_iff_ne_zero.mp h
  have hT : (((accumulate imageWidths minViewport maxViewport
      contexts).totalViews : ℚ)) ≠ 0 := by
    exact_mod_cast hT0
  constructor
  · intro p hp
    simp only [aggregate, List.mem_map] at hp
    obtain ⟨q, _, rfl⟩ := hp
    refine ⟨q.2 / ((accumulate imageWidths minViewport maxViewport
      contexts).totalViews : ℚ), ?_⟩
    simp [jsDiv, hT0]
  · rw [shareSum]
    simp only [aggregate]
    rw [sum_jsToQ_div _ _ hT, accumulate_valueSum, accumulate_totalViews]
    exact div_self (by exact_mod_cast Nat.pos_iff_ne_zero.mp h)

theorem shares_sum_to_one_witness :
    0 < inRangeViews 300 302 [VisitorRecord.mk 300 1 10] ∧
      shareSum (aggregate [(300, 300), (301, 301), (302, 302)] 300 302
        [VisitorRecord.mk 300 1 10]) = 1 :=
  ⟨by decide,
    (shares_sum_to_one [(300, 300), (301, 301), (302, 302)] 300 302
      [VisitorRecord.mk 300 1 10] (by decide)).2⟩

/-- C4 (code-bug evidence): with a single in-range record carrying zero
views, `totalViews` is 0, yet the normalization pass still runs: the share
is computed as the JavaScript quotient `0 / 0 = NaN` and the resulting
distribution is the non-empty `{100 ↦ NaN}`.  No `EmptyDistributionError`
is surfaced and the division by a zero `totalViews` does happen. -/
theorem zero_total_views_nan_share :
    (accumulate [(300, 100)] 300 300 [VisitorRecord.mk 300 1 0]).totalViews
        = 0 ∧
      aggregate [(300, 100)] 300 300 [VisitorRecord.mk 300 1 0]
        = [(JSNum.num 100, JSNum.nan)] := by
  norm_num [aggregate, accumulate, recordStep, perfectWidthOf, mapGet,
    mapFind, mapSet, jsMul, jsCeil, jsDiv, List.find?]

/-- C7 (code-bug evidence): when `page.goto` fails, the sweep never starts
and `imageWidths` stays empty — but the `catch` only logs, so `main`
resolves normally and execution continues into Step 3 over the empty
mapping: the run returns a distribution whose only key is `NaN` (share 1)
instead of surfacing the navigation error to the caller. -/
theorem navigation_failure_continues :
    runMain false (fun w => some w) 300 302 [VisitorRecord.mk 300 1 10] 3
      = { imageWidths := [],
          perfectWidths := [(JSNum.nan, JSNum.num 1)],
          srcset := [] } := by
  norm_num [runMain, aggregate, accumulate, recordStep, perfectWidthOf,
    mapGet, mapFind, mapSet, jsMul, jsCeil, jsDiv, srcsetPlan, List.find?]

/-- C10: an in-range record whose viewport is missing from the
`imageWidths` mapping (for example after an aborted or failed sweep) gets
`undefined × density = NaN` as its computed perfect width, and `NaN` is
inserted as a key of the distribution instead of any error being
raised. -/
theorem missing_measurement_nan_key (imageWidths : List (Nat × Nat))
    (minViewport maxViewport : Nat) (contexts : List VisitorRecord)
    (r : VisitorRecord) (hmem : r ∈ contexts)
    (hlo : minViewport ≤ r.viewport) (hhi : r.viewport ≤ maxViewport)
    (hmiss : mapFind imageWidths r.viewport = (none : Option Nat)) :
    perfectWidthOf imageWidths r = JSNum.nan ∧
      mapFind (aggregate imageWidths minViewport maxViewport contexts)
          JSNum.nan ≠ none := by
  have hpw : perfectWidthOf imageWidths r = JSNum.nan := by
    simp [perfectWidthOf, mapGet, hmiss, jsMul, jsCeil]
  refine ⟨hpw, ?_⟩
  rw [mapFind_aggregate]
  rw [if_pos ⟨r, hmem, ⟨hlo, hhi⟩, hpw⟩]
  simp

theorem missing_measurement_nan_key_witness :
    perfectWidthOf [] (VisitorRecord.mk 300 1 10) = JSNum.nan ∧
      mapFind (aggregate [] 300 302 [VisitorRecord.mk 300 1 10]) JSNum.nan
        ≠ none :=
  missing_measurement_nan_key [] 300 302 [VisitorRecord.mk 300 1 10]
    (VisitorRecord.mk 300 1 10) (by decide) (by decide) (by decide)
    (by decide)

end Daltons
